import Mathlib

/-!
# dynIP: client packet encoder, interval parser and server packet handling

A shallow embedding of `src/dynip-client.c` and `src/dynip-server.c`.

* Bytes (`char`) are natural numbers; a C string is the run of bytes before the
  first NUL of a byte list (`cstr`).
* `config.h` is not part of the sources, so `BUFFER_SIZE` and `ARGUMENT_MAX`
  are the two fields of `Config`.
* `long` and pointers are 64 bit wide, `int` 32 bit wide; the `long` multiplication
  wraps modulo `2 ^ 64` (`wrap_long`).
* The block `arguments` points to has the number of bytes that was requested from
  `malloc`; a store of an entry that does not lie inside it has no defined result
  (`none`, `out_of_bounds`).
* Answers of the operating system (datagrams, the socket address of the sender,
  `fork`, `execvp`, `waitpid`) are explicit inputs; the text form of an address is
  computed by a given `inet_ntop` from the bytes that `recvfrom` left in `address`.
-/

namespace DynIP

/-- Constants of `config.h`. -/
structure Config where
  BUFFER_SIZE : Nat
  ARGUMENT_MAX : Nat
deriving DecidableEq

/-- The C string that starts at the head of a byte list: the bytes before the first NUL. -/
def cstr (s : List Nat) : List Nat := s.takeWhile (fun c => c != 0)

/-- Libc `strlen`. -/
def strlen (s : List Nat) : Nat := (cstr s).length

/-- Libc `memcpy(&dst[off], src, src.length)`: overwrite `dst` from offset `off`. -/
def memcpy (dst : List Nat) (off : Nat) (src : List Nat) : List Nat :=
  dst.take off ++ src ++ dst.drop (off + src.length)

/-- Libc `memcmp(a, b, n) == 0`: the first `n` bytes agree. -/
def memcmp_eq (a b : List Nat) (n : Nat) : Bool := a.take n == b.take n

/-- Libc `strcmp(a, b) == 0`. -/
def strcmp_eq (a b : List Nat) : Bool := cstr a == cstr b

/-- The string literal `"DynIP"` with its terminating NUL: six bytes. -/
def magic : List Nat := [68, 121, 110, 73, 80, 0]

/-! ## Client: `dynip-client.c` -/

namespace Client

/-- The globals `buffer` and `length` of the client. -/
structure State where
  buffer : List Nat
  length : Nat
deriving DecidableEq

/-- Static initialisers: `buffer[BUFFER_SIZE] = "DynIP"` (zero filled), `length = 6`. -/
def init (cfg : Config) : State :=
  { buffer := [68, 121, 110, 73, 80] ++ List.replicate (cfg.BUFFER_SIZE - 5) 0, length := 6 }

/-- Client `add_argument`: append `str` and its NUL when it fits in `buffer`. -/
def add_argument (cfg : Config) (st : State) (str : List Nat) : State × Bool :=
  let len := strlen str + 1
  if st.length + len ≤ cfg.BUFFER_SIZE then
    ({ buffer := memcpy st.buffer st.length (cstr str ++ [0]), length := st.length + len }, true)
  else
    (st, false)

/-- The argument loop of `main` (lines 207-217): `none` stands for `exit(EXIT_FAILURE)`. -/
def add_arguments (cfg : Config) : State → List (List Nat) → Option State
  | st, [] => some st
  | st, a :: rest =>
    match add_argument cfg st a with
    | (st1, true) => add_arguments cfg st1 rest
    | (_, false) => none

/-- Packet building in `main`: the argument count check, then the argument loop. -/
def build (cfg : Config) (args : List (List Nat)) : Option State :=
  if args.length > cfg.ARGUMENT_MAX then none else add_arguments cfg (init cfg) args

/-- The datagram handed to `sendto(sockfd, buffer, length, ...)`. -/
def packet (st : State) : List Nat := st.buffer.take st.length

def LONG_MAX : Int := 2 ^ 63 - 1

def LONG_MIN : Int := -(2 ^ 63)

def INT_MAX : Int := 2 ^ 31 - 1

/-- Two's complement wrap-around of a 64 bit `long`. -/
def wrap_long (x : Int) : Int := (x + 2 ^ 63) % 2 ^ 64 - 2 ^ 63

/-- Libc `isspace` in the C locale. -/
def isspace (c : Nat) : Bool := c == 32 || (9 ≤ c && c ≤ 13)

/-- Libc `isdigit`. -/
def isdigit (c : Nat) : Bool := 48 ≤ c && c ≤ 57

/-- Value of a run of decimal digits. -/
def digits_value (ds : List Nat) : Nat := ds.foldl (fun acc d => 10 * acc + (d - 48)) 0

/-- Libc `strtol(str, &endptr, 10)` with a 64 bit `long`: skip white space, take an optional
sign and the longest run of digits; the value saturates at `LONG_MIN` and `LONG_MAX`; without
a digit the value is 0 and `endptr` is `str`. Returns the value and `endptr`. -/
def strtol (str : List Nat) : Int × List Nat :=
  let s := str.dropWhile isspace
  let signed : Bool × List Nat :=
    match s with
    | 45 :: t => (true, t)
    | 43 :: t => (false, t)
    | _ => (false, s)
  let ds := signed.2.takeWhile isdigit
  if ds.isEmpty then (0, str)
  else
    let v : Int := if signed.1 then -(digits_value ds : Int) else (digits_value ds : Int)
    (max LONG_MIN (min LONG_MAX v), signed.2.dropWhile isdigit)

/-- Client `parse_interval`; the result is the returned `int` (`errno` is not modelled). -/
def parse_interval (str : List Nat) : Int :=
  let r := strtol str
  let interval := r.1
  let endptr := r.2
  if interval < 1 ∨ interval ≥ LONG_MAX then -1
  else
    let scaled : Option Int :=
      if strcmp_eq endptr [115] || strcmp_eq endptr [] then some interval
      else if strcmp_eq endptr [109] then some (wrap_long (interval * 60))
      else if strcmp_eq endptr [104] then some (wrap_long (interval * (60 * 60)))
      else if strcmp_eq endptr [100] then some (wrap_long (interval * (60 * 60 * 24)))
      else none
    match scaled with
    | none => -1
    | some interval2 => if interval2 < 1 ∨ interval2 > INT_MAX then -1 else interval2

end Client

/-- Seconds per unit suffix as the specification lists them: none, `s`, `m`, `h`, `d`. -/
def Client.unit_multiplier (u : List Nat) : Option Int :=
  if u = [] ∨ u = [115] then some 1
  else if u = [109] then some 60
  else if u = [104] then some 3600
  else if u = [100] then some 86400
  else none

/-- Reference definition of the interval parser, following the specification: the number `v`
followed by the suffix `u` denotes `v * k` seconds when `v` is positive, `u` is a listed unit
with multiplier `k` and the product is at most `INT_MAX`; everything else is rejected. -/
def Client.interval_reference (v : Int) (u : List Nat) : Int :=
  match Client.unit_multiplier u with
  | some k => if 1 ≤ v ∧ v * k ≤ Client.INT_MAX then v * k else -1
  | none => -1

/-- An optional minus sign in front of a decimal literal. -/
def Client.sign_bytes (neg : Bool) : List Nat := if neg then [45] else []

/-- The integer denoted by a sign and a digit run. -/
def Client.signed_value (neg : Bool) (ds : List Nat) : Int :=
  if neg then -(Client.digits_value ds : Int) else (Client.digits_value ds : Int)

/-- Wire layout of the fields of a packet: every field followed by its NUL. -/
def fields_bytes : List (List Nat) → List Nat
  | [] => []
  | f :: rest => f ++ 0 :: fields_bytes rest

/-- Wire layout of a packet: the magic tag, then the NUL terminated fields. -/
def wire (fields : List (List Nat)) : List Nat := magic ++ fields_bytes fields

/-! ## Server: `dynip-server.c` -/

namespace Server

/-- A `const char *` stored in `arguments`. -/
inductive Ptr
  /-- A string of the server command line; `s` is its content. -/
  | arg (s : List Nat)
  /-- The static `strsockaddr_buf`. -/
  | addr
  /-- The address `&buffer[off]`. -/
  | buf (off : Nat)
deriving DecidableEq

/-- Size of a `const char *` in bytes (64 bit target, as for `long`). -/
def sizeof_ptr : Nat := 8

/-- Size of `struct sockaddr_storage` in bytes. -/
def sizeof_sockaddr_storage : Nat := 128

/-- Address family of `struct sockaddr_in`. -/
def AF_INET : Nat := 2

/-- Address family of `struct sockaddr_in6`. -/
def AF_INET6 : Nat := 10

/-- The globals of the server and the two locals of `server` that live across packets.
`arguments k` is entry `k` of the block `arguments` points to (`none` is NULL) and
`arguments_bytes` is the size of that block, as requested from `malloc`;
`arguments_remote = none` is the value -1; `strsockaddr_buf` holds the string last written by
`inet_ntop`; `address` holds the bytes of the local `struct sockaddr_storage address` and
`address_len` the local `socklen_t address_len`. -/
structure State where
  buffer : List Nat
  length : Nat
  arguments : Nat → Option Ptr
  arguments_bytes : Nat
  arguments_max : Nat
  arguments_local : Nat
  arguments_remote : Option Nat
  strsockaddr_buf : List Nat
  address : List Nat
  address_len : Nat

/-- The assignment `a[k] = v`. -/
def store (a : Nat → Option Ptr) (k : Nat) (v : Option Ptr) : Nat → Option Ptr :=
  fun j => if j = k then v else a j

/-- Entry `k` of `arguments` lies inside the allocated block: its `sizeof_ptr` bytes end at or
before byte `arguments_bytes`. -/
def in_block (st : State) (k : Nat) : Bool := decide (sizeof_ptr * (k + 1) ≤ st.arguments_bytes)

/-- The statically initialised globals before `main` runs (the locals of `server` do not
exist yet). -/
def start (cfg : Config) : State :=
  { buffer := List.replicate cfg.BUFFER_SIZE 0
    length := 0
    arguments := fun _ => none
    arguments_bytes := 0
    arguments_max := 0
    arguments_local := 0
    arguments_remote := some 0
    strsockaddr_buf := []
    address := []
    address_len := 0 }

/-- Server `init_arguments`; `mem` is the block returned by `malloc(arguments_max)` (`none`
for NULL) with whatever entries it happens to hold. -/
def init_arguments (cfg : Config) (st : State) (local_arguments : Nat)
    (mem : Option (Nat → Option Ptr)) : State × Bool :=
  let arguments_max := 1 + local_arguments + 1 + cfg.ARGUMENT_MAX + 1
  let st1 : State :=
    { st with
      arguments_max := arguments_max
      arguments_local := 0
      arguments_remote := none
      arguments_bytes := arguments_max }
  match mem with
  | none => (st1, false)
  | some m => ({ st1 with arguments := m }, true)

/-- Server `remote_arguments`. -/
def remote_arguments (st : State) : State :=
  { st with arguments_remote := some st.arguments_local }

/-- Server `add_argument`. The result is `none` when one of the two stores
`arguments[k] = str` and `arguments[k + 1] = NULL` lies outside the allocated block: the
behaviour of the program is undefined from there on. -/
def add_argument (st : State) (str : Ptr) : Option (State × Bool) :=
  match st.arguments_remote with
  | none =>
    if st.arguments_local + 1 ≥ st.arguments_max then some (st, false)
    else if in_block st st.arguments_local && in_block st (st.arguments_local + 1) then
      some ({ st with
              arguments := store (store st.arguments st.arguments_local (some str))
                (st.arguments_local + 1) none
              arguments_local := st.arguments_local + 1 }, true)
    else none
  | some r =>
    if r + 1 ≥ st.arguments_max then some (st, false)
    else if in_block st r && in_block st (r + 1) then
      some ({ st with
              arguments := store (store st.arguments r (some str)) (r + 1) none
              arguments_remote := some (r + 1) }, true)
    else none

/-- How the argument set-up of `main` ends. -/
inductive Startup
  /-- The call of `server` is reached with these globals. -/
  | ready (st : State)
  /-- The process ended with `exit(EXIT_FAILURE)`. -/
  | exit_failure
  /-- A store of `add_argument` fell outside the allocated block. -/
  | out_of_bounds

/-- The loop of `main` adding the static arguments. -/
def add_local_arguments : State → List (List Nat) → Startup
  | st, [] => Startup.ready st
  | st, a :: rest =>
    match add_argument st (Ptr.arg a) with
    | none => Startup.out_of_bounds
    | some (st1, true) => add_local_arguments st1 rest
    | some (_, false) => Startup.exit_failure

/-- Argument set-up of `main` (lines 307-322) for the command line `command args...`. -/
def main_init (cfg : Config) (command : List Nat) (args : List (List Nat))
    (mem : Option (Nat → Option Ptr)) : Startup :=
  match init_arguments cfg (start cfg) args.length mem with
  | (_, false) => Startup.exit_failure
  | (st1, true) =>
    match add_argument st1 (Ptr.arg command) with
    | none => Startup.out_of_bounds
    | some (_, false) => Startup.exit_failure
    | some (st2, true) => add_local_arguments st2 args

/-- Lines 129-130 of `server`: `address` is not initialised and holds whatever bytes `stack`
the stack has there (completed with zero bytes to the size of the variable);
`address_len = sizeof(address)`. -/
def server_locals (st : State) (stack : List Nat) : State :=
  { st with
    address := (stack ++ List.replicate sizeof_sockaddr_storage 0).take sizeof_sockaddr_storage
    address_len := sizeof_sockaddr_storage }

/-- From the command line to the first wake-up of `server`: `main_init`, then the locals. -/
def startup (cfg : Config) (command : List Nat) (args : List (List Nat))
    (mem : Option (Nat → Option Ptr)) (stack : List Nat) : Startup :=
  match main_init cfg command args mem with
  | Startup.ready st => Startup.ready (server_locals st stack)
  | Startup.exit_failure => Startup.exit_failure
  | Startup.out_of_bounds => Startup.out_of_bounds

/-- The string a stored pointer points to. -/
def deref (st : State) : Ptr → List Nat
  | Ptr.arg s => s
  | Ptr.addr => st.strsockaddr_buf
  | Ptr.buf off => cstr (st.buffer.drop off)

/-- Reading of a NULL terminated vector from entry `k` on, as `execvp` does; `fuel` bounds the
number of entries read. -/
def read_argv (st : State) : Nat → Nat → List (List Nat)
  | 0, _ => []
  | fuel + 1, k =>
    match st.arguments k with
    | none => []
    | some p => deref st p :: read_argv st fuel (k + 1)

/-- The argument vector `arguments` as `execvp` sees it. -/
def argv (st : State) : List (List Nat) := read_argv st st.arguments_max 0

/-- The call `length = recvfrom(fd, buffer, sizeof(buffer), 0, &address, &address_len)`.
A datagram is cut to `BUFFER_SIZE` bytes and overwrites the start of `buffer`; `sender` is
the socket address of its source, of which the first `address_len` bytes (the value passed
in) overwrite the start of `address`, and `address_len` becomes the full size of `sender`.
A `datagram` of `none` is the result -1, which leaves the address untouched. -/
def recvfrom (cfg : Config) (st : State) (datagram : Option (List Nat)) (sender : List Nat) :
    State :=
  match datagram with
  | none => { st with length := 2 ^ 64 - 1 }
  | some d =>
    { st with
      buffer := memcpy st.buffer 0 (d.take cfg.BUFFER_SIZE)
      length := (d.take cfg.BUFFER_SIZE).length
      address := memcpy st.address 0 (sender.take st.address_len)
      address_len := sender.length }

/-- The packet check of line 208; `true` means the packet is rejected. -/
def invalid_packet (st : State) : Bool :=
  decide (st.length < 6) || !(memcmp_eq st.buffer magic 6) ||
    (st.buffer.getD (st.length - 1) 0 != 0)

/-- The field `sa_family` of `address`: its first two bytes, low byte first. -/
def sa_family (st : State) : Nat := st.address.getD 0 0 + 256 * st.address.getD 1 0

/-- Server `strsockaddr` on `address`. `inet_ntop af src` is the text libc `inet_ntop` writes
for the address bytes `src` of family `af` (`none` for NULL); it is given the 4 bytes of
`sin_addr` at offset 4 or the 16 bytes of `sin6_addr` at offset 8. -/
def strsockaddr (inet_ntop : Nat → List Nat → Option (List Nat)) (st : State) :
    State × Option Ptr :=
  if sa_family st = AF_INET then
    match inet_ntop AF_INET ((st.address.drop 4).take 4) with
    | none => (st, none)
    | some s => ({ st with strsockaddr_buf := s }, some Ptr.addr)
  else if sa_family st = AF_INET6 then
    match inet_ntop AF_INET6 ((st.address.drop 8).take 16) with
    | none => (st, none)
    | some s => ({ st with strsockaddr_buf := s }, some Ptr.addr)
  else (st, none)

/-- The field loop of lines 225-233, `for(i = 0; i + 1 < length; i++)`, started at `i` with
`fuel` iterations left. Returns the state, `status` and the final value of `i`; `none` when
a store of `add_argument` fell outside the allocated block. -/
def scan_fields : Nat → State → Nat → Option (State × Int × Nat)
  | 0, st, i => some (st, 0, i)
  | fuel + 1, st, i =>
    if i + 1 < st.length then
      if st.buffer.getD i 0 = 0 then
        match add_argument st (Ptr.buf (i + 1)) with
        | none => none
        | some (st1, false) => some (st1, -1, i)
        | some (st1, true) => scan_fields fuel st1 (i + 1)
      else scan_fields fuel st (i + 1)
    else some (st, 0, i)

/-- Answers of the operating system to one dispatch: the result of `fork` in the process that
is followed, whether `execvp` fails, and `waitpid` (`none` for -1, else the exit status). -/
structure Spawn where
  pid : Int
  exec_fails : Bool
  wait : Option Nat
deriving DecidableEq

/-- What the followed process does in the dispatch step. -/
inductive Event
  | fork
  | execvp (argv : List (List Nat))
  | log_execvp
  | log_fork
  | waitpid (pid : Int)
  | log_waitpid
  | log_status (status : Nat)
deriving DecidableEq

/-- Lines 249-254: the call `waitpid(pid, &status, 0)` and the diagnostics after it. -/
def wait_child (sp : Spawn) : List Event :=
  Event.waitpid sp.pid ::
    (match sp.wait with
     | none => [Event.log_waitpid]
     | some s => if s ≠ 0 then [Event.log_status s] else [])

/-- Lines 239-254: fork, exec in the child, wait. Returns the events in order and whether the
followed process goes on with the socket loop afterwards (`false`: its image was replaced by
the command, the only way not to reach line 249). -/
def dispatch (argv : List (List Nat)) (sp : Spawn) : List Event × Bool :=
  let forked : List Event × Bool :=
    if sp.pid = 0 then
      if sp.exec_fails then ([Event.fork, Event.execvp argv, Event.log_execvp], true)
      else ([Event.fork, Event.execvp argv], false)
    else if sp.pid = -1 then ([Event.fork, Event.log_fork], true)
    else ([Event.fork], true)
  if forked.2 then (forked.1 ++ wait_child sp, true) else forked

/-- How the handling of one readable socket ends. -/
inductive Outcome
  | recv_error
  | invalid_packet
  | address_error
  | too_many_remote
  /-- A store of `add_argument` fell outside the allocated block: undefined behaviour. -/
  | out_of_bounds
  | dispatched (argv : List (List Nat)) (events : List Event) (goes_on : Bool)
deriving DecidableEq

/-- What the environment supplies while one readable socket is handled: the datagram (`none`
when `recvfrom` fails), the socket address of its sender as the kernel holds it, and the
answers to the dispatch. -/
structure Input where
  datagram : Option (List Nat)
  sender : List Nat
  spawn : Spawn
deriving DecidableEq

/-- Result of the loop body: the globals, the loop variable `i` and the outcome. -/
structure Result where
  st : State
  i : Nat
  outcome : Outcome

/-- The body of the socket loop for a readable socket (lines 200-254), entered with loop
variable `i`. `recvfrom` yields -1 exactly when `length == -1` holds afterwards. -/
def handle (cfg : Config) (inet_ntop : Nat → List Nat → Option (List Nat)) (st : State)
    (i : Nat) (inp : Input) : Result :=
  let st1 := recvfrom cfg (remote_arguments st) inp.datagram inp.sender
  match inp.datagram with
  | none => ⟨st1, i, Outcome.recv_error⟩
  | some _ =>
    if invalid_packet st1 then ⟨st1, i, Outcome.invalid_packet⟩
    else
      match strsockaddr inet_ntop st1 with
      | (st2, none) => ⟨st2, i, Outcome.address_error⟩
      | (st2, some address_str) =>
        match add_argument st2 address_str with
        | none => ⟨st2, i, Outcome.out_of_bounds⟩
        | some (st3, false) => ⟨st3, i, Outcome.too_many_remote⟩
        | some (st3, true) =>
          match scan_fields st3.length st3 0 with
          | none => ⟨st3, i, Outcome.out_of_bounds⟩
          | some (st4, status, i4) =>
            if status = -1 then ⟨st4, i4, Outcome.too_many_remote⟩
            else
              let d := dispatch (argv st4) inp.spawn
              ⟨st4, i4, Outcome.dispatched (argv st4) d.1 d.2⟩

/-- The socket loop of one wake-up, `for(i = 0; i < sockfds_count; i++)`, from loop variable
`i` on. `revents` lists for each socket whether `POLLIN` is set, `env t i` is the input of
the `t`-th receive of this wake-up when it happens on socket `i`. Returns the sockets handed
to the receive path with their outcomes, in order; the list ends where the process image is
replaced or the behaviour becomes undefined; `none` when `fuel` runs out. -/
def wake (cfg : Config) (inet_ntop : Nat → List Nat → Option (List Nat))
    (revents : List Bool) (env : Nat → Nat → Input) :
    Nat → State → Nat → Nat → Option (List (Nat × Outcome))
  | 0, _, _, _ => none
  | fuel + 1, st, i, t =>
    if i < revents.length then
      if revents.getD i false then
        let r := handle cfg inet_ntop st i (env t i)
        match r.outcome with
        | Outcome.dispatched _ _ false => some [(i, r.outcome)]
        | Outcome.out_of_bounds => some [(i, r.outcome)]
        | _ =>
          (wake cfg inet_ntop revents env fuel r.st (r.i + 1) (t + 1)).map
            (fun l => (i, r.outcome) :: l)
      else wake cfg inet_ntop revents env fuel st (i + 1) t
    else some []

/-- The globals after the handling of the inputs `hist`, one readable socket each, whatever
the value of the loop variable was; `none` when the behaviour became undefined on the way. -/
def after_history (cfg : Config) (inet_ntop : Nat → List Nat → Option (List Nat)) :
    State → List (Nat × Input) → Option State
  | st, [] => some st
  | st, (i, inp) :: rest =>
    match (handle cfg inet_ntop st i inp).outcome with
    | Outcome.out_of_bounds => none
    | _ => after_history cfg inet_ntop (handle cfg inet_ntop st i inp).st rest

end Server

/-- The packet passed the check of line 208, so argument assembly was entered. -/
def Server.Outcome.validated : Server.Outcome → Bool
  | Server.Outcome.recv_error => false
  | Server.Outcome.invalid_packet => false
  | _ => true

/-- A command was dispatched. -/
def Server.Outcome.is_dispatch : Server.Outcome → Bool
  | Server.Outcome.dispatched _ _ _ => true
  | _ => false

/-- The globals with which `server` is entered, when start-up gets that far. -/
def Server.Startup.state : Server.Startup → Option Server.State
  | Server.Startup.ready st => some st
  | _ => none

/-- Start-up ended in a store outside the allocated block. -/
def Server.Startup.is_out_of_bounds : Server.Startup → Bool
  | Server.Startup.out_of_bounds => true
  | _ => false

/-- The three-part validity predicate of the specification on a received byte sequence. -/
def well_formed (b : List Nat) : Prop :=
  6 ≤ b.length ∧ b.take 6 = [68, 121, 110, 73, 80, 0] ∧ b[b.length - 1]? = some 0

instance : DecidablePred well_formed := fun b => by
  unfold well_formed
  infer_instance

/-- Number of fields a packet carries: the NUL terminators after the magic tag. -/
def field_count (b : List Nat) : Nat := (b.drop 6).count 0

/-- Number of loop positions `j` from `i` on, `j + 1 < length`, that hold a NUL byte: the
number of `add_argument` calls the field loop makes when none of them stops it. -/
def Server.count_nul (buffer : List Nat) (length : Nat) : Nat → Nat → Nat
  | 0, _ => 0
  | fuel + 1, i =>
    if i + 1 < length then
      (if buffer.getD i 0 = 0 then 1 else 0) + Server.count_nul buffer length fuel (i + 1)
    else 0

/-- State `st` has the sizes that start-up with `n` static arguments leaves: a block of
`arguments_max` bytes, `n + 1` local entries and a receive buffer of `BUFFER_SIZE` bytes. -/
def Server.Sized (cfg : Config) (n : Nat) (st : Server.State) : Prop :=
  st.arguments_bytes = n + 3 + cfg.ARGUMENT_MAX ∧ st.arguments_max = n + 3 + cfg.ARGUMENT_MAX ∧
  st.arguments_local = n + 1 ∧ st.buffer.length = cfg.BUFFER_SIZE

/-! ## Concrete inputs used to instantiate the theorems -/

/-- A configuration whose argument block (32 bytes without static arguments) has room for
four entries: 32 byte buffers, at most 29 remote fields. -/
def sample_cfg : Config := { BUFFER_SIZE := 32, ARGUMENT_MAX := 29 }

/-- A parent-side dispatch that succeeds: child 7 exits with status 0. -/
def sample_spawn : Server.Spawn := { pid := 7, exec_fails := false, wait := some 0 }

/-- The `struct sockaddr_in` of the sender 127.0.0.1, port 40000: 16 bytes. -/
def sender_v4 : List Nat := [2, 0, 156, 64, 127, 0, 0, 1, 0, 0, 0, 0, 0, 0, 0, 0]

/-- The `struct sockaddr_in6` of the sender ::1, port 40000: 28 bytes. -/
def sender_v6 : List Nat :=
  [10, 0, 156, 64, 0, 0, 0, 0,
   0, 0, 0, 0, 0, 0, 0, 0, 0, 0, 0, 0, 0, 0, 0, 1,
   0, 0, 0, 0]

/-- The text of libc `inet_ntop` for the addresses that occur in the samples: `127.0.0.1`,
`::1` and `::`. -/
def sample_inet_ntop (af : Nat) (src : List Nat) : Option (List Nat) :=
  if af = 2 ∧ src = [127, 0, 0, 1] then some [49, 50, 55, 46, 48, 46, 48, 46, 49]
  else if af = 10 ∧ src = [0, 0, 0, 0, 0, 0, 0, 0, 0, 0, 0, 0, 0, 0, 0, 1] then
    some [58, 58, 49]
  else if af = 10 ∧ src = [0, 0, 0, 0, 0, 0, 0, 0, 0, 0, 0, 0, 0, 0, 0, 0] then some [58, 58]
  else none

/-- An earlier datagram without fields from the IPv4 sender. -/
def sample_earlier : Server.Input :=
  { datagram := some (wire []), sender := sender_v4, spawn := sample_spawn }

/-- Every socket delivers the 6 byte packet `"DynIP\0"` from sender `::1`, dispatch succeeds. -/
def sample_env : Nat → Nat → Server.Input :=
  fun _ _ => { datagram := some (wire []), sender := sender_v6, spawn := sample_spawn }

/-- The first receive is followed in the child (`fork` returned 0) whose `execvp` fails and
whose `waitpid(0, ...)` fails for want of children; every later `recvfrom` fails. -/
def sample_child_env : Nat → Nat → Server.Input :=
  fun t _ =>
    if t = 0 then
      { datagram := some (wire []), sender := sender_v6,
        spawn := { pid := 0, exec_fails := true, wait := none } }
    else { datagram := none, sender := [], spawn := sample_spawn }

/-- The first receive yields the 6 byte packet `"DynIP\0"` and a successful dispatch; every
later `recvfrom` fails. -/
def sample_once_env : Nat → Nat → Server.Input :=
  fun t _ =>
    if t = 0 then
      { datagram := some (wire []), sender := sender_v6, spawn := sample_spawn }
    else { datagram := none, sender := [], spawn := sample_spawn }

/-! # Theorems -/

/-! ## Lemmas on byte lists and the wire layout -/

theorem cstr_of_nul_free {s : List Nat} (hs : 0 ∉ s) : cstr s = s := by
  unfold cstr
  rw [List.takeWhile_eq_self_iff]
  intro c hc
  have : c ≠ 0 := fun h0 => hs (h0 ▸ hc)
  simpa using this

theorem fields_bytes_length (fs : List (List Nat)) :
    (fields_bytes fs).length = (fs.map (fun s => s.length + 1)).sum := by
  induction fs with
  | nil => rfl
  | cons f fs ih => simp [fields_bytes, ih]; omega

theorem fields_bytes_ends (fs : List (List Nat)) :
    ∀ pre : List Nat, ∃ body, pre ++ 0 :: fields_bytes fs = body ++ [0] := by
  induction fs with
  | nil => intro pre; exact ⟨pre, rfl⟩
  | cons f fs ih =>
    intro pre
    obtain ⟨body, hb⟩ := ih (pre ++ 0 :: f)
    exact ⟨body, by rw [← hb]; simp [fields_bytes]⟩

theorem well_formed_wire (fs : List (List Nat)) : well_formed (wire fs) := by
  obtain ⟨body, hb⟩ := fields_bytes_ends fs [68, 121, 110, 73, 80]
  have hw : wire fs = body ++ [0] := by
    rw [← hb]; simp [wire, magic]
  refine ⟨by simp [wire, magic], by simp [wire, magic], ?_⟩
  rw [hw]
  simp

theorem fields_bytes_count (fs : List (List Nat)) (hfs : ∀ f ∈ fs, 0 ∉ f) :
    (fields_bytes fs).count 0 = fs.length := by
  induction fs with
  | nil => rfl
  | cons f fs ih =>
    have hf : f.count 0 = 0 := List.count_eq_zero.mpr (hfs f (by simp))
    have := ih (fun g hg => hfs g (by simp [hg]))
    simp [fields_bytes, List.count_append, hf, this]

/-! ## The client encoder and the interval parser -/

theorem Client.add_arguments_spec (cfg : Config) (args : List (List Nat)) :
    ∀ st : Client.State, (∀ s ∈ args, 0 ∉ s) → st.buffer.length = cfg.BUFFER_SIZE →
      st.length + (fields_bytes args).length ≤ cfg.BUFFER_SIZE →
      ∃ st1, Client.add_arguments cfg st args = some st1 ∧
        Client.packet st1 = Client.packet st ++ fields_bytes args := by
  induction args with
  | nil =>
    intro st _ _ _
    exact ⟨st, rfl, by simp [fields_bytes]⟩
  | cons a args ih =>
    intro st hargs hbl hfit
    have ha : cstr a = a := cstr_of_nul_free (hargs a (by simp))
    have hargs1 : ∀ s ∈ args, 0 ∉ s := fun s hs => hargs s (by simp [hs])
    have hfb : (fields_bytes (a :: args)).length = a.length + 1 + (fields_bytes args).length := by
      simp [fields_bytes]; omega
    rw [hfb] at hfit
    have hroom : st.length + (a.length + 1) ≤ cfg.BUFFER_SIZE := by omega
    obtain ⟨st1, hrun, hpk⟩ := ih
      { buffer := memcpy st.buffer st.length (a ++ [0]), length := st.length + (a.length + 1) }
      hargs1
      (by simp only [memcpy, List.length_append, List.length_take, List.length_drop,
            List.length_cons, List.length_nil, hbl]; omega)
      (by simp only; omega)
    refine ⟨st1, ?_, ?_⟩
    · simp only [Client.add_arguments, Client.add_argument, strlen, ha, hroom, if_true]
      exact hrun
    · rw [hpk]
      have hlen1 : (st.buffer.take st.length).length = st.length := by
        rw [List.length_take]; omega
      have : Client.packet
          { buffer := memcpy st.buffer st.length (a ++ [0]),
            length := st.length + (a.length + 1) } = Client.packet st ++ (a ++ [0]) := by
        simp only [Client.packet, memcpy]
        rw [List.take_append_of_le_length (by simp [hlen1])]
        rw [List.take_of_length_le (by simp [hlen1])]
      rw [this]
      simp [fields_bytes]

theorem Client.build_spec (cfg : Config) (args : List (List Nat)) (hargs : ∀ s ∈ args, 0 ∉ s)
    (hk : args.length ≤ cfg.ARGUMENT_MAX)
    (hsize : 6 + (args.map (fun s => s.length + 1)).sum ≤ cfg.BUFFER_SIZE) :
    ∃ st, Client.build cfg args = some st ∧ Client.packet st = wire args := by
  have hk1 : ¬ (args.length > cfg.ARGUMENT_MAX) := by omega
  obtain ⟨st, hrun, hpk⟩ := Client.add_arguments_spec cfg args (Client.init cfg) hargs
    (by simp [Client.init]; omega) (by rw [fields_bytes_length]; exact hsize)
  refine ⟨st, by simp only [Client.build, hk1, if_false]; exact hrun, ?_⟩
  rw [hpk]
  obtain ⟨k, hk⟩ : ∃ k, cfg.BUFFER_SIZE - 5 = k + 1 := ⟨cfg.BUFFER_SIZE - 6, by omega⟩
  simp [Client.packet, Client.init, wire, magic, hk, List.replicate_succ]

theorem Client.takeWhile_isdigit_stop (u : List Nat) (hu : ∀ c ∈ u.head?, Client.isdigit c = false) :
    u.takeWhile Client.isdigit = [] ∧ u.dropWhile Client.isdigit = u := by
  cases u with
  | nil => simp
  | cons c t =>
    have hc : Client.isdigit c = false := hu c (by simp)
    simp [List.takeWhile_cons, List.dropWhile_cons, hc]

theorem Client.strtol_literal (neg : Bool) (ds u : List Nat) (hne : ds ≠ [])
    (hd : ∀ d ∈ ds, Client.isdigit d = true) (hv : Client.digits_value ds < 2 ^ 31)
    (hu : ∀ c ∈ u.head?, Client.isdigit c = false) :
    Client.strtol (Client.sign_bytes neg ++ ds ++ u) = (Client.signed_value neg ds, u) := by
  obtain ⟨htw, hdw⟩ := Client.takeWhile_isdigit_stop u hu
  have htake : (ds ++ u).takeWhile Client.isdigit = ds := by
    rw [List.takeWhile_append_of_pos hd, htw, List.append_nil]
  have hdrop : (ds ++ u).dropWhile Client.isdigit = u := by
    rw [List.dropWhile_append_of_pos hd, hdw]
  have hclamp : ∀ v : Int, -(2 ^ 31) < v → v < 2 ^ 31 →
      max Client.LONG_MIN (min Client.LONG_MAX v) = v := by
    intro v h1 h2
    unfold Client.LONG_MIN Client.LONG_MAX
    omega
  have hempty : ds.isEmpty = false := by
    cases ds with
    | nil => exact absurd rfl hne
    | cons _ _ => rfl
  cases neg with
  | true =>
    have hstr : Client.sign_bytes true ++ ds ++ u = 45 :: (ds ++ u) := by
      simp [Client.sign_bytes]
    rw [hstr]
    have hsp : (45 :: (ds ++ u)).dropWhile Client.isspace = 45 :: (ds ++ u) := by
      rw [List.dropWhile_cons_of_neg]; decide
    simp only [Client.strtol, hsp, htake, hdrop, hempty, Client.signed_value]
    simp only [Bool.false_eq_true, if_false, if_true]
    rw [hclamp _ (by omega) (by omega)]
  | false =>
    cases ds with
    | nil => exact absurd rfl hne
    | cons d t =>
      have hdig : Client.isdigit d = true := hd d (by simp)
      have hrange : 48 ≤ d ∧ d ≤ 57 := by
        simpa [Client.isdigit] using hdig
      have hstr : Client.sign_bytes false ++ (d :: t) ++ u = d :: (t ++ u) := by
        simp [Client.sign_bytes]
      rw [hstr]
      have hsp : (d :: (t ++ u)).dropWhile Client.isspace = d :: (t ++ u) := by
        rw [List.dropWhile_cons_of_neg]
        simp [Client.isspace]; omega
      have hsign : (match d :: (t ++ u) with
          | 45 :: r => (true, r)
          | 43 :: r => (false, r)
          | _ => (false, d :: (t ++ u))) = (false, d :: (t ++ u)) := by
        split
        · rename_i heq; simp at heq; omega
        · rename_i heq; simp at heq; omega
        · rfl
      have htake2 : (d :: (t ++ u)).takeWhile Client.isdigit = d :: t := by
        simpa using htake
      have hdrop2 : (d :: (t ++ u)).dropWhile Client.isdigit = u := by
        simpa using hdrop
      simp only [Client.strtol, hsp, hsign, htake2, hdrop2, Client.signed_value]
      simp only [List.isEmpty_cons, Bool.false_eq_true, if_false]
      rw [hclamp _ (by omega) (by omega)]

/-- The sample intervals of the specification: `30`, `5m`, `2h`, `1d` are accepted; `0`,
`-5` and `3x` are rejected. -/
theorem parse_interval_samples :
    Client.parse_interval [51, 48] = 30 ∧ Client.parse_interval [53, 109] = 300 ∧
    Client.parse_interval [50, 104] = 7200 ∧ Client.parse_interval [49, 100] = 86400 ∧
    Client.parse_interval [48] = -1 ∧ Client.parse_interval [45, 53] = -1 ∧
    Client.parse_interval [51, 120] = -1 := by
  decide

/-! ## The server: packet check, argument block, field loop -/

theorem Server.recvfrom_buffer (cfg : Config) (st : Server.State) (b sender : List Nat)
    (hn : b.length ≤ cfg.BUFFER_SIZE) :
    (Server.recvfrom cfg st (some b) sender).buffer = b ++ st.buffer.drop b.length ∧
    (Server.recvfrom cfg st (some b) sender).length = b.length := by
  have ht : b.take cfg.BUFFER_SIZE = b := List.take_of_length_le hn
  simp [Server.recvfrom, memcpy, ht]

theorem Server.invalid_packet_iff (st : Server.State) (b rest : List Nat)
    (hb : st.buffer = b ++ rest) (hl : st.length = b.length) :
    Server.invalid_packet st = false ↔ well_formed b := by
  unfold Server.invalid_packet well_formed memcmp_eq
  rw [hb, hl]
  by_cases h6 : 6 ≤ b.length
  · have h1 : (b ++ rest).take 6 = b.take 6 := by
      rw [List.take_append_of_le_length h6]
    have h2 : (b ++ rest).getD (b.length - 1) 0 = b.getD (b.length - 1) 0 := by
      simp only [List.getD_eq_getElem?_getD]
      rw [List.getElem?_append_left (by omega)]
    have h3 : b[b.length - 1]? = some (b.getD (b.length - 1) 0) := by
      rw [List.getD_eq_getElem?_getD, List.getElem?_eq_getElem (by omega)]
      simp
    rw [h1, h2, h3]
    simp [magic, h6]
  · simp [h6]

/-- What a completed `add_argument` leaves: the sizes, the buffer and the address are kept;
a successful call in the remote region advances `arguments_remote` by one, and its second
store, of entry `arguments_remote + 1`, was inside the block. -/
theorem Server.add_argument_some (st st1 : Server.State) (p : Server.Ptr) (ok : Bool)
    (h : Server.add_argument st p = some (st1, ok)) :
    st1.arguments_bytes = st.arguments_bytes ∧ st1.arguments_max = st.arguments_max ∧
    st1.buffer = st.buffer ∧ st1.length = st.length ∧
    (∀ r, st.arguments_remote = some r →
      st1.arguments_local = st.arguments_local ∧
      (ok = false → st1.arguments_remote = some r) ∧
      (ok = true → st1.arguments_remote = some (r + 1) ∧
        Server.sizeof_ptr * (r + 2) ≤ st.arguments_bytes)) ∧
    (st.arguments_remote = none →
      st1.arguments_remote = none ∧
      (ok = true → st1.arguments_local = st.arguments_local + 1)) := by
  unfold Server.add_argument at h
  cases hr : st.arguments_remote with
  | none =>
    rw [hr] at h
    simp only at h
    by_cases hfull : st.arguments_local + 1 ≥ st.arguments_max
    · simp only [hfull, if_true, Option.some.injEq, Prod.mk.injEq] at h
      obtain ⟨rfl, rfl⟩ := h
      simp [hr]
    · simp only [hfull, if_false] at h
      split at h
      · simp only [Option.some.injEq, Prod.mk.injEq] at h
        obtain ⟨rfl, rfl⟩ := h
        simp [hr]
      · exact absurd h (by simp)
  | some r =>
    rw [hr] at h
    simp only at h
    by_cases hfull : r + 1 ≥ st.arguments_max
    · simp only [hfull, if_true, Option.some.injEq, Prod.mk.injEq] at h
      obtain ⟨rfl, rfl⟩ := h
      simp [hr]
    · simp only [hfull, if_false] at h
      split at h
      · rename_i hin
        simp only [Option.some.injEq, Prod.mk.injEq] at h
        obtain ⟨rfl, rfl⟩ := h
        simp only [Server.in_block, Server.sizeof_ptr, Bool.and_eq_true,
          decide_eq_true_eq] at hin
        simp [Server.sizeof_ptr]
        omega
      · exact absurd h (by simp)

/-- The field loop, when it completes without its `add_argument` refusing, has advanced
`arguments_remote` by the number of NUL positions it met, and the last store it made was
inside the block. -/
theorem Server.scan_fields_count (fuel : Nat) :
    ∀ (st st1 : Server.State) (i i1 r : Nat) (status : Int),
      Server.scan_fields fuel st i = some (st1, status, i1) → st.arguments_remote = some r →
      st1.arguments_bytes = st.arguments_bytes ∧ st1.arguments_max = st.arguments_max ∧
      st1.arguments_local = st.arguments_local ∧ st1.buffer = st.buffer ∧
      (status ≠ -1 →
        st1.arguments_remote = some (r + Server.count_nul st.buffer st.length fuel i) ∧
        (0 < Server.count_nul st.buffer st.length fuel i →
          Server.sizeof_ptr * (r + Server.count_nul st.buffer st.length fuel i + 1)
            ≤ st.arguments_bytes)) := by
  induction fuel with
  | zero =>
    intro st st1 i i1 r status h hr
    simp only [Server.scan_fields, Option.some.injEq, Prod.mk.injEq] at h
    obtain ⟨rfl, rfl, rfl⟩ := h
    simp [Server.count_nul, hr]
  | succ fuel ih =>
    intro st st1 i i1 r status h hr
    unfold Server.scan_fields at h
    unfold Server.count_nul
    by_cases hlt : i + 1 < st.length
    · by_cases hz : st.buffer.getD i 0 = 0
      · simp only [hlt, hz, if_true] at h ⊢
        cases hadd : Server.add_argument st (Server.Ptr.buf (i + 1)) with
        | none => rw [hadd] at h; exact absurd h (by simp)
        | some res =>
          obtain ⟨st2, ok⟩ := res
          rw [hadd] at h
          obtain ⟨hb, hm, hbuf, hlen, hrem, -⟩ := Server.add_argument_some st st2 _ ok hadd
          obtain ⟨hloc, hrf, hrt⟩ := hrem r hr
          cases ok with
          | false =>
            simp only [Option.some.injEq, Prod.mk.injEq] at h
            obtain ⟨rfl, rfl, rfl⟩ := h
            exact ⟨hb, hm, hloc, hbuf, fun hne => absurd rfl hne⟩
          | true =>
            obtain ⟨hr2, hroom⟩ := hrt rfl
            simp only at h
            obtain ⟨k1, k2, k3, k4, k5⟩ := ih st2 st1 (i + 1) i1 (r + 1) status h hr2
            rw [hbuf, hlen] at k5
            rw [hb] at k1 k5
            refine ⟨k1, k2.trans hm, k3.trans hloc, k4.trans hbuf, fun hne => ?_⟩
            obtain ⟨e1, e2⟩ := k5 hne
            refine ⟨by rw [e1]; congr 1; omega, fun _ => ?_⟩
            by_cases hpos : 0 < Server.count_nul st.buffer st.length fuel (i + 1)
            · have := e2 hpos
              have hidx : r + (1 + Server.count_nul st.buffer st.length fuel (i + 1)) + 1
                  = r + 1 + Server.count_nul st.buffer st.length fuel (i + 1) + 1 := by omega
              rw [hidx]; exact this
            · have hzero : Server.count_nul st.buffer st.length fuel (i + 1) = 0 := by omega
              rw [hzero]
              exact hroom
      · simp only [hlt, hz, if_true, if_false] at h ⊢
        obtain ⟨k1, k2, k3, k4, k5⟩ := ih st st1 (i + 1) i1 r status h hr
        refine ⟨k1, k2, k3, k4, fun hne => ?_⟩
        obtain ⟨e1, e2⟩ := k5 hne
        exact ⟨by rw [e1]; congr 1; omega, fun hp => by
          have := e2 (by omega)
          simpa [Nat.zero_add] using this⟩
    · simp only [hlt, if_false, Option.some.injEq, Prod.mk.injEq] at h ⊢
      obtain ⟨rfl, rfl, rfl⟩ := h
      simp [hr]

/-- With enough fuel the loop positions holding a NUL are the NUL bytes of the first
`length - 1` bytes of the buffer, from position `i` on. -/
theorem Server.count_nul_eq_count (buffer : List Nat) (length : Nat)
    (hlen : length ≤ buffer.length) (fuel : Nat) :
    ∀ i, length ≤ i + fuel + 1 →
      Server.count_nul buffer length fuel i = ((buffer.take (length - 1)).drop i).count 0 := by
  induction fuel with
  | zero =>
    intro i hi
    have : (buffer.take (length - 1)).drop i = [] := by
      apply List.drop_eq_nil_of_le
      rw [List.length_take]; omega
    simp [Server.count_nul, this]
  | succ fuel ih =>
    intro i hi
    unfold Server.count_nul
    by_cases hlt : i + 1 < length
    · have hi1 : i < (buffer.take (length - 1)).length := by
        rw [List.length_take]; omega
      have hget : (buffer.take (length - 1))[i] = buffer.getD i 0 := by
        rw [List.getElem_take, List.getD_eq_getElem?_getD,
          List.getElem?_eq_getElem (by omega)]
        rfl
      rw [List.drop_eq_getElem_cons hi1, hget, List.count_cons, ih (i + 1) (by omega)]
      simp only [hlt, if_true]
      by_cases hz : buffer.getD i 0 = 0
      · rw [hz]; simp [Nat.add_comm]
      · rw [if_neg hz]
        have hz2 : ¬ ((buffer.getD i 0 == 0) = true) := by simpa using hz
        rw [if_neg hz2]
        omega
    · have : (buffer.take (length - 1)).drop i = [] := by
        apply List.drop_eq_nil_of_le
        rw [List.length_take]; omega
      simp [hlt, this]

/-- In a well-formed packet the NUL bytes before the last byte are as many as its fields. -/
theorem count_before_last (b : List Nat) (hb : well_formed b) :
    (b.take (b.length - 1)).count 0 = field_count b := by
  obtain ⟨h6, hmagic, hlast⟩ := hb
  have hsplit : b = b.take (b.length - 1) ++ [0] := by
    have h1 : b.take (b.length - 1) ++ b.drop (b.length - 1) = b := List.take_append_drop _ b
    have h2 : b.drop (b.length - 1) = [0] := by
      rw [List.drop_eq_getElem_cons (by omega)]
      have hg : b[b.length - 1] = 0 := by
        rw [List.getElem?_eq_getElem (by omega)] at hlast
        simpa using hlast
      rw [hg]
      congr 1
      apply List.drop_eq_nil_of_le
      omega
    rw [h2] at h1
    exact h1.symm
  have hall : b.count 0 = (b.take (b.length - 1)).count 0 + 1 := by
    conv => lhs; rw [hsplit]
    simp [List.count_append]
  have hparts : b.count 0 = (b.take 6).count 0 + (b.drop 6).count 0 := by
    conv => lhs; rw [← List.take_append_drop 6 b]
    rw [List.count_append]
  have hm : (b.take 6).count 0 = 1 := by rw [hmagic]; decide
  unfold field_count
  omega

theorem Server.scan_fields_exit (fuel : Nat) (st : Server.State) (i : Nat)
    (h : ¬ (i + 1 < st.length)) : Server.scan_fields fuel st i = some (st, 0, i) := by
  cases fuel with
  | zero => rfl
  | succ fuel => simp [Server.scan_fields, h]

/-- The field loop ends within `length - i` iterations: any two amounts of fuel that reach
`length` give the same result, so `scan_fields st.length st 0` is the result of the loop. -/
theorem Server.scan_fields_fuel (fuel1 : Nat) :
    ∀ (fuel2 : Nat) (st : Server.State) (i : Nat), st.length ≤ i + fuel1 →
      st.length ≤ i + fuel2 →
      Server.scan_fields fuel1 st i = Server.scan_fields fuel2 st i := by
  induction fuel1 with
  | zero =>
    intro fuel2 st i h1 _
    rw [Server.scan_fields_exit 0 st i (by omega), Server.scan_fields_exit fuel2 st i (by omega)]
  | succ fuel1 ih =>
    intro fuel2 st i h1 h2
    cases fuel2 with
    | zero =>
      rw [Server.scan_fields_exit _ st i (by omega), Server.scan_fields_exit 0 st i (by omega)]
    | succ fuel2 =>
      unfold Server.scan_fields
      by_cases hlt : i + 1 < st.length
      · by_cases hz : st.buffer.getD i 0 = 0
        · simp only [hlt, hz, if_true]
          cases hadd : Server.add_argument st (Server.Ptr.buf (i + 1)) with
          | none => rfl
          | some res =>
            obtain ⟨st1, ok⟩ := res
            obtain ⟨-, -, -, hlen, -, -⟩ := Server.add_argument_some st st1 _ ok hadd
            cases ok with
            | false => rfl
            | true => exact ih fuel2 st1 (i + 1) (by omega) (by omega)
        · simp only [hlt, hz, if_true, if_false]
          exact ih fuel2 st (i + 1) (by omega) (by omega)
      · simp only [hlt, if_false]
theorem Server.add_local_arguments_sized (rest : List (List Nat)) :
    ∀ (st st1 : Server.State), st.arguments_remote = none →
      Server.add_local_arguments st rest = Server.Startup.ready st1 →
      st1.arguments_bytes = st.arguments_bytes ∧ st1.arguments_max = st.arguments_max ∧
      st1.buffer = st.buffer ∧ st1.arguments_local = st.arguments_local + rest.length := by
  induction rest with
  | nil =>
    intro st st1 _ h
    simp only [Server.add_local_arguments, Server.Startup.ready.injEq] at h
    subst h
    simp
  | cons a rest ih =>
    intro st st1 hr h
    unfold Server.add_local_arguments at h
    cases hadd : Server.add_argument st (Server.Ptr.arg a) with
    | none => rw [hadd] at h; exact absurd h (by simp)
    | some res =>
      obtain ⟨st2, ok⟩ := res
      rw [hadd] at h
      obtain ⟨hb, hm, hbuf, -, -, hloc⟩ := Server.add_argument_some st st2 _ ok hadd
      cases ok with
      | false => exact absurd h (by simp)
      | true =>
        obtain ⟨hr2, hl2⟩ := hloc hr
        obtain ⟨k1, k2, k3, k4⟩ := ih st2 st1 hr2 h
        refine ⟨k1.trans hb, k2.trans hm, k3.trans hbuf, ?_⟩
        rw [k4, hl2 rfl]
        simp only [List.length_cons]
        omega

/-- When start-up reaches `server`, the block has `arguments_max = n + 3 + ARGUMENT_MAX`
bytes for `n` static arguments and the local region has `n + 1` entries. -/
theorem Server.startup_sized (cfg : Config) (c : List Nat) (ls : List (List Nat))
    (mem : Option (Nat → Option Server.Ptr)) (stack : List Nat) (st0 : Server.State)
    (h : Server.startup cfg c ls mem stack = Server.Startup.ready st0) :
    Server.Sized cfg ls.length st0 := by
  unfold Server.startup at h
  cases hmain : Server.main_init cfg c ls mem with
  | exit_failure => rw [hmain] at h; exact absurd h (by simp)
  | out_of_bounds => rw [hmain] at h; exact absurd h (by simp)
  | ready st =>
    rw [hmain] at h
    simp only [Server.Startup.ready.injEq] at h
    subst h
    unfold Server.main_init at hmain
    cases mem with
    | none => simp [Server.init_arguments] at hmain
    | some m =>
      simp only [Server.init_arguments] at hmain
      cases hadd : Server.add_argument
          { Server.start cfg with
            arguments := m
            arguments_max := 1 + ls.length + 1 + cfg.ARGUMENT_MAX + 1
            arguments_local := 0
            arguments_remote := none
            arguments_bytes := 1 + ls.length + 1 + cfg.ARGUMENT_MAX + 1 } (Server.Ptr.arg c) with
      | none => rw [hadd] at hmain; exact absurd hmain (by simp)
      | some res =>
        obtain ⟨st2, ok⟩ := res
        rw [hadd] at hmain
        obtain ⟨hb, hm, hbuf, -, -, hloc⟩ := Server.add_argument_some _ st2 _ ok hadd
        cases ok with
        | false => exact absurd hmain (by simp)
        | true =>
          obtain ⟨hr2, hl2⟩ := hloc rfl
          obtain ⟨k1, k2, k3, k4⟩ := Server.add_local_arguments_sized ls st2 st hr2 hmain
          have hl3 := hl2 rfl
          simp only at hb hm hbuf hl3
          refine ⟨?_, ?_, ?_, ?_⟩
          · show st.arguments_bytes = _
            rw [k1, hb]; omega
          · show st.arguments_max = _
            rw [k2, hm]; omega
          · show st.arguments_local = _
            rw [k4, hl3]; omega
          · show st.buffer.length = _
            rw [k3, hbuf]; simp [Server.start]

theorem Server.recv_sized (cfg : Config) (n : Nat) (st : Server.State)
    (dg : Option (List Nat)) (sender : List Nat) (h : Server.Sized cfg n st) :
    Server.Sized cfg n (Server.recvfrom cfg (Server.remote_arguments st) dg sender) ∧
    (Server.recvfrom cfg (Server.remote_arguments st) dg sender).arguments_remote
      = some (n + 1) := by
  obtain ⟨h1, h2, h3, h4⟩ := h
  cases dg with
  | none =>
    exact ⟨⟨h1, h2, h3, h4⟩, by simp [Server.recvfrom, Server.remote_arguments, h3]⟩
  | some d =>
    refine ⟨⟨h1, h2, h3, ?_⟩, by simp [Server.recvfrom, Server.remote_arguments, h3]⟩
    simp only [Server.recvfrom, Server.remote_arguments, memcpy, List.take_zero, List.nil_append,
      List.length_append, List.length_take, List.length_drop, Nat.zero_add, h4]
    omega

theorem Server.strsockaddr_frame (f : Nat → List Nat → Option (List Nat)) (st : Server.State) :
    (Server.strsockaddr f st).1.arguments_bytes = st.arguments_bytes ∧
    (Server.strsockaddr f st).1.arguments_max = st.arguments_max ∧
    (Server.strsockaddr f st).1.arguments_local = st.arguments_local ∧
    (Server.strsockaddr f st).1.arguments_remote = st.arguments_remote ∧
    (Server.strsockaddr f st).1.buffer = st.buffer ∧
    (Server.strsockaddr f st).1.length = st.length := by
  unfold Server.strsockaddr
  split
  · split <;> simp
  · split
    · split <;> simp
    · simp

/-- The path of `handle` to a dispatch: the packet passed the check, the address was added,
and the field loop completed with status 0 on the state `st4` whose vector is dispatched. -/
theorem Server.handle_dispatch_path (cfg : Config) (f : Nat → List Nat → Option (List Nat))
    (st : Server.State) (i : Nat) (b sender : List Nat) (spawn : Server.Spawn)
    (hd : (Server.handle cfg f st i ⟨some b, sender, spawn⟩).outcome.is_dispatch = true) :
    ∃ p st3 st4 status i4,
      (Server.strsockaddr f (Server.recvfrom cfg (Server.remote_arguments st) (some b) sender)).2
        = some p ∧
      Server.add_argument
        (Server.strsockaddr f (Server.recvfrom cfg (Server.remote_arguments st) (some b) sender)).1
        p = some (st3, true) ∧
      Server.scan_fields st3.length st3 0 = some (st4, status, i4) ∧ status ≠ -1 := by
  unfold Server.handle at hd
  simp only at hd
  split at hd
  · simp [Server.Outcome.is_dispatch] at hd
  · generalize Server.strsockaddr f
      (Server.recvfrom cfg (Server.remote_arguments st) (some b) sender) = sa at hd ⊢
    obtain ⟨st2, op⟩ := sa
    cases op with
    | none => simp [Server.Outcome.is_dispatch] at hd
    | some p =>
      simp only at hd
      cases hadd : Server.add_argument st2 p with
      | none => rw [hadd] at hd; simp [Server.Outcome.is_dispatch] at hd
      | some res =>
        obtain ⟨st3, ok⟩ := res
        rw [hadd] at hd
        cases ok with
        | false => simp [Server.Outcome.is_dispatch] at hd
        | true =>
          simp only at hd
          cases hscan : Server.scan_fields st3.length st3 0 with
          | none => rw [hscan] at hd; simp [Server.Outcome.is_dispatch] at hd
          | some res2 =>
            obtain ⟨st4, status, i4⟩ := res2
            rw [hscan] at hd
            simp only at hd
            by_cases hs : status = -1
            · simp [hs, Server.Outcome.is_dispatch] at hd
            · exact ⟨p, st3, st4, status, i4, rfl, hadd, hscan, hs⟩

/-- A dispatch needs room in the block: after start-up sizes for `n` static arguments, a
well-formed packet with `m` fields is dispatched only if the `n + 3 + m` entries written
(command, static arguments, address, fields, NULL) fit into the `n + 3 + ARGUMENT_MAX` bytes
of the block. -/
theorem Server.dispatch_needs_room (cfg : Config) (f : Nat → List Nat → Option (List Nat))
    (n : Nat) (st : Server.State) (i : Nat) (b sender : List Nat) (spawn : Server.Spawn)
    (hst : Server.Sized cfg n st) (hb : well_formed b) (hlen : b.length ≤ cfg.BUFFER_SIZE)
    (hd : (Server.handle cfg f st i ⟨some b, sender, spawn⟩).outcome.is_dispatch = true) :
    Server.sizeof_ptr * (n + 3 + field_count b) ≤ n + 3 + cfg.ARGUMENT_MAX := by
  obtain ⟨p, st3, st4, status, i4, -, hadd, hscan, hs⟩ :=
    Server.handle_dispatch_path cfg f st i b sender spawn hd
  obtain ⟨hsz1, hr1⟩ := Server.recv_sized cfg n st (some b) sender hst
  obtain ⟨hbuf1, hlen1⟩ := Server.recvfrom_buffer cfg (Server.remote_arguments st) b sender hlen
  obtain ⟨g1, -, -, g4, g5, g6⟩ := Server.strsockaddr_frame f
    (Server.recvfrom cfg (Server.remote_arguments st) (some b) sender)
  obtain ⟨a1, -, a3, a4, a5, -⟩ := Server.add_argument_some _ st3 p true hadd
  obtain ⟨-, -, a7⟩ := a5 (n + 1) (by rw [g4]; exact hr1)
  obtain ⟨hr3, hroom3⟩ := a7 rfl
  obtain ⟨-, -, -, -, c5⟩ := Server.scan_fields_count st3.length st3 st4 0 i4 (n + 1 + 1) status
    hscan hr3
  obtain ⟨-, hroom4⟩ := c5 hs
  have hbytes3 : st3.arguments_bytes = n + 3 + cfg.ARGUMENT_MAX := by
    rw [a1, g1]; exact hsz1.1
  have hbuf3 : st3.buffer = b ++ (Server.remote_arguments st).buffer.drop b.length := by
    rw [a3, g5]; exact hbuf1
  have hlen3 : st3.length = b.length := by rw [a4, g6]; exact hlen1
  have hcount : Server.count_nul st3.buffer st3.length st3.length 0 = field_count b := by
    rw [Server.count_nul_eq_count st3.buffer st3.length
      (by rw [hbuf3, hlen3]; simp) st3.length 0 (by omega)]
    rw [List.drop_zero, hbuf3, hlen3, List.take_append_of_le_length (by omega)]
    exact count_before_last b hb
  rw [hcount, hbytes3] at hroom4
  rw [g1, hsz1.1] at hroom3
  by_cases hpos : 0 < field_count b
  · have := hroom4 hpos
    have hidx : n + 1 + 1 + field_count b + 1 = n + 3 + field_count b := by omega
    rw [hidx] at this
    exact this
  · have hzero : field_count b = 0 := by omega
    rw [hzero]
    exact hroom3

theorem Server.handle_sized (cfg : Config) (f : Nat → List Nat → Option (List Nat)) (n : Nat)
    (st : Server.State) (i : Nat) (inp : Server.Input) (h : Server.Sized cfg n st) :
    Server.Sized cfg n (Server.handle cfg f st i inp).st := by
  obtain ⟨dg, sender, spawn⟩ := inp
  obtain ⟨h1, hr1⟩ := Server.recv_sized cfg n st dg sender h
  cases dg with
  | none => simpa [Server.handle] using h1
  | some d =>
    obtain ⟨g1, g2, g3, g4, g5, -⟩ := Server.strsockaddr_frame f
      (Server.recvfrom cfg (Server.remote_arguments st) (some d) sender)
    have h2 : Server.Sized cfg n (Server.strsockaddr f
        (Server.recvfrom cfg (Server.remote_arguments st) (some d) sender)).1 :=
      ⟨g1.trans h1.1, g2.trans h1.2.1, g3.trans h1.2.2.1, by rw [g5]; exact h1.2.2.2⟩
    have hr2 := g4.trans hr1
    unfold Server.handle
    simp only
    split
    · exact h1
    · generalize Server.strsockaddr f
        (Server.recvfrom cfg (Server.remote_arguments st) (some d) sender) = sa at h2 hr2 ⊢
      obtain ⟨st2, op⟩ := sa
      simp only at h2 hr2
      cases op with
      | none => exact h2
      | some p =>
        simp only
        cases hadd : Server.add_argument st2 p with
        | none => exact h2
        | some res =>
          obtain ⟨st3, ok⟩ := res
          obtain ⟨a1, a2, a3, -, a5, -⟩ := Server.add_argument_some st2 st3 p ok hadd
          obtain ⟨a6, a7, a8⟩ := a5 (n + 1) hr2
          have h3 : Server.Sized cfg n st3 :=
            ⟨a1.trans h2.1, a2.trans h2.2.1, a6.trans h2.2.2.1, by rw [a3]; exact h2.2.2.2⟩
          cases ok with
          | false => exact h3
          | true =>
            simp only
            cases hscan : Server.scan_fields st3.length st3 0 with
            | none => exact h3
            | some res2 =>
              obtain ⟨st4, status, i4⟩ := res2
              obtain ⟨c1, c2, c3, c4, -⟩ := Server.scan_fields_count st3.length st3 st4 0 i4
                (n + 1 + 1) status hscan (a8 rfl).1
              have h4 : Server.Sized cfg n st4 :=
                ⟨c1.trans h3.1, c2.trans h3.2.1, c3.trans h3.2.2.1, by rw [c4]; exact h3.2.2.2⟩
              simp only
              split <;> exact h4

theorem Server.after_history_sized (cfg : Config) (f : Nat → List Nat → Option (List Nat))
    (n : Nat) (hist : List (Nat × Server.Input)) :
    ∀ st st1, Server.Sized cfg n st → Server.after_history cfg f st hist = some st1 →
      Server.Sized cfg n st1 := by
  induction hist with
  | nil =>
    intro st st1 h hrun
    simp only [Server.after_history, Option.some.injEq] at hrun
    exact hrun ▸ h
  | cons x hist ih =>
    intro st st1 h hrun
    obtain ⟨i, inp⟩ := x
    unfold Server.after_history at hrun
    split at hrun
    · exact absurd hrun (by simp)
    · exact ih _ st1 (Server.handle_sized cfg f n st i inp h) hrun
/-! ## The claims -/

/-- The three-part predicate decides the check of line 208 in `handle`. -/
theorem Server.handle_validated (cfg : Config) (f : Nat → List Nat → Option (List Nat))
    (st : Server.State) (i : Nat) (b sender : List Nat) (spawn : Server.Spawn)
    (hn : b.length ≤ cfg.BUFFER_SIZE) :
    ((Server.handle cfg f st i ⟨some b, sender, spawn⟩).outcome.validated = true
      ↔ well_formed b) ∧
    (¬ well_formed b →
      (Server.handle cfg f st i ⟨some b, sender, spawn⟩).outcome
        = Server.Outcome.invalid_packet ∧
      (Server.handle cfg f st i ⟨some b, sender, spawn⟩).i = i) := by
  obtain ⟨hbuf, hlen⟩ := Server.recvfrom_buffer cfg (Server.remote_arguments st) b sender hn
  have hiff := Server.invalid_packet_iff _ b _ hbuf hlen
  by_cases hw : well_formed b
  · have hv := hiff.mpr hw
    simp only [hw, iff_true, not_true_eq_false, false_implies, and_true]
    simp only [Server.handle, hv]
    simp only [Bool.false_eq_true, if_false]
    repeat' split
    all_goals rfl
  · have hv : Server.invalid_packet
        (Server.recvfrom cfg (Server.remote_arguments st) (some b) sender) = true := by
      cases h : Server.invalid_packet
          (Server.recvfrom cfg (Server.remote_arguments st) (some b) sender)
      · exact absurd (hiff.mp h) hw
      · rfl
    simp only [hw, iff_false, not_false_eq_true, true_implies]
    simp [Server.handle, hv, Server.Outcome.validated]

/-- C1 (fails on the code): the client builds the packet and the server's check accepts it,
but the field scan stores its pointers through `add_argument` into a block of only
`arguments_max` bytes. Whatever the configuration, a list of exactly `ARGUMENT_MAX`
arguments is never scanned into a dispatched vector; and with `ARGUMENT_MAX = 21`, no static
arguments (a block of 24 bytes, three entries) and the single argument `a`, the scan's first
`add_argument` stores the terminating NULL as entry 3, outside the block. With
`ARGUMENT_MAX = 3` and one static argument the block has 7 bytes and already the first store
of start-up is outside it. The last two parts are the first at `ARGUMENT_MAX = 21` with 21
empty arguments. -/
theorem round_trip_store_out_of_block :
    (∀ (cfg : Config) (args : List (List Nat)) (c : List Nat) (ls : List (List Nat))
        (mem : Option (Nat → Option Server.Ptr)) (stack : List Nat)
        (f : Nat → List Nat → Option (List Nat)) (hist : List (Nat × Server.Input))
        (st0 st : Server.State) (i : Nat) (sender : List Nat) (spawn : Server.Spawn),
      (∀ s ∈ args, 0 ∉ s) → args.length = cfg.ARGUMENT_MAX →
      6 + (args.map (fun s => s.length + 1)).sum ≤ cfg.BUFFER_SIZE →
      Server.startup cfg c ls mem stack = Server.Startup.ready st0 →
      Server.after_history cfg f st0 hist = some st →
      ∃ cst, Client.build cfg args = some cst ∧
        (Server.handle cfg f st i ⟨some (Client.packet cst), sender, spawn⟩).outcome.validated
          = true ∧
        (Server.handle cfg f st i ⟨some (Client.packet cst), sender, spawn⟩).outcome.is_dispatch
          = false) ∧
    (Client.build (Config.mk 32 21) [[97]]).map Client.packet = some (wire [[97]]) ∧
    (Server.startup (Config.mk 32 21) [101] [] (some (fun _ => none)) []).state.map
        (fun st => (Server.handle (Config.mk 32 21) sample_inet_ntop st 0
          ⟨some (wire [[97]]), sender_v6, sample_spawn⟩).outcome)
      = some Server.Outcome.out_of_bounds ∧
    (Server.startup (Config.mk 32 3) [101] [[45, 118]] (some (fun _ => none))
        []).is_out_of_bounds = true ∧
    (Client.build (Config.mk 32 21) (List.replicate 21 [])).map Client.packet
      = some (wire (List.replicate 21 [])) ∧
    (Server.startup (Config.mk 32 21) [101] [] (some (fun _ => none)) []).state.map
        (fun st => (Server.handle (Config.mk 32 21) sample_inet_ntop st 0
          ⟨some (wire (List.replicate 21 [])), sender_v6, sample_spawn⟩).outcome)
      = some Server.Outcome.out_of_bounds := by
  refine ⟨?_, by decide, by decide, by decide, by decide, by decide⟩
  intro cfg args c ls mem stack f hist st0 st i sender spawn hargs hk hsize h0 hh
  obtain ⟨cst, hbuild, hpk⟩ := Client.build_spec cfg args hargs (by omega) hsize
  have hlen : (wire args).length ≤ cfg.BUFFER_SIZE := by
    simp only [wire, magic, List.length_append, List.length_cons, List.length_nil,
      fields_bytes_length]
    omega
  have hsized := Server.after_history_sized cfg f ls.length hist st0 st
    (Server.startup_sized cfg c ls mem stack st0 h0) hh
  have hcount : field_count (wire args) = args.length := by
    simp [field_count, wire, magic, fields_bytes_count args hargs]
  refine ⟨cst, hbuild, ?_, ?_⟩
  · rw [hpk]
    exact (Server.handle_validated cfg f st i (wire args) sender spawn hlen).1.mpr
      (well_formed_wire args)
  · rw [hpk]
    cases hd : (Server.handle cfg f st i ⟨some (wire args), sender, spawn⟩).outcome.is_dispatch
    · rfl
    · have := Server.dispatch_needs_room cfg f ls.length st i (wire args) sender spawn hsized
        (well_formed_wire args) hlen hd
      rw [hcount, hk] at this
      simp only [Server.sizeof_ptr] at this
      omega

/-- C2: a received byte sequence of at most `BUFFER_SIZE` bytes passes the server's packet
check exactly when it has at least 6 bytes, starts with `"DynIP\0"` and ends with a NUL byte;
every other packet is dropped as invalid and nothing is dispatched for it. -/
theorem server_validation_exact (cfg : Config) (f : Nat → List Nat → Option (List Nat))
    (st : Server.State) (i : Nat) (b sender : List Nat) (spawn : Server.Spawn)
    (hn : b.length ≤ cfg.BUFFER_SIZE) :
    ((Server.handle cfg f st i ⟨some b, sender, spawn⟩).outcome.validated = true
      ↔ well_formed b) ∧
    (¬ well_formed b →
      (Server.handle cfg f st i ⟨some b, sender, spawn⟩).outcome
        = Server.Outcome.invalid_packet ∧
      (Server.handle cfg f st i ⟨some b, sender, spawn⟩).outcome.is_dispatch = false ∧
      (Server.handle cfg f st i ⟨some b, sender, spawn⟩).i = i) := by
  obtain ⟨h1, h2⟩ := Server.handle_validated cfg f st i b sender spawn hn
  refine ⟨h1, fun hw => ?_⟩
  obtain ⟨e1, e2⟩ := h2 hw
  exact ⟨e1, by rw [e1]; rfl, e2⟩

theorem server_validation_exact_witness :
    [68, 121, 110, 73, 80, 0, 97, 0].length ≤ (Config.mk 32 2).BUFFER_SIZE ∧
    (((Server.handle (Config.mk 32 2) sample_inet_ntop (Server.start (Config.mk 32 2)) 0
        ⟨some [68, 121, 110, 73, 80, 0, 97, 0], [], ⟨1, false, some 0⟩⟩).outcome.validated = true
      ↔ well_formed [68, 121, 110, 73, 80, 0, 97, 0]) ∧
    (¬ well_formed [68, 121, 110, 73, 80, 0, 97, 0] →
      (Server.handle (Config.mk 32 2) sample_inet_ntop (Server.start (Config.mk 32 2)) 0
        ⟨some [68, 121, 110, 73, 80, 0, 97, 0], [], ⟨1, false, some 0⟩⟩).outcome
          = Server.Outcome.invalid_packet ∧
      (Server.handle (Config.mk 32 2) sample_inet_ntop (Server.start (Config.mk 32 2)) 0
        ⟨some [68, 121, 110, 73, 80, 0, 97, 0], [], ⟨1, false, some 0⟩⟩).outcome.is_dispatch
          = false ∧
      (Server.handle (Config.mk 32 2) sample_inet_ntop (Server.start (Config.mk 32 2)) 0
        ⟨some [68, 121, 110, 73, 80, 0, 97, 0], [], ⟨1, false, some 0⟩⟩).i = 0)) :=
  ⟨by decide, server_validation_exact (Config.mk 32 2) sample_inet_ntop
    (Server.start (Config.mk 32 2)) 0 [68, 121, 110, 73, 80, 0, 97, 0] [] ⟨1, false, some 0⟩
    (by decide)⟩

/-- C3 (fails on the code): the address string is not always the sender's. `address_len` is
set once and `recvfrom` leaves the size of the last sender in it, so after a datagram from
the IPv4 sender 127.0.0.1 (16 bytes) only the first 16 bytes of the `sockaddr_in6` of the
next sender `::1` are stored and `inet_ntop` is handed 8 bytes of the sender and 8 bytes that
were in `address` before: the vector dispatched for the packet with field `a` carries `::`
where the same packet without the earlier datagram carries `::1`. Besides, the vector is
stored in a block of only `arguments_max` bytes: a packet with exactly `ARGUMENT_MAX` fields
is never dispatched, as for the 21 fields `x` at `ARGUMENT_MAX = 21` in the last part. -/
theorem argv_address_from_stale_bytes :
    (sender_v6.drop 8).take 16 = [0, 0, 0, 0, 0, 0, 0, 0, 0, 0, 0, 0, 0, 0, 0, 1] ∧
    ((Server.startup sample_cfg [101] [] (some (fun _ => none)) []).state.bind
        (fun st0 => Server.after_history sample_cfg sample_inet_ntop st0
          [(0, sample_earlier)])).map
        (fun st => (((Server.recvfrom sample_cfg (Server.remote_arguments st)
            (some (wire [[97]])) sender_v6).address.drop 8).take 16,
          (Server.handle sample_cfg sample_inet_ntop st 1
            ⟨some (wire [[97]]), sender_v6, sample_spawn⟩).outcome))
      = some ([0, 0, 0, 0, 0, 0, 0, 0, 0, 0, 0, 0, 0, 0, 0, 0],
          Server.Outcome.dispatched [[101], [58, 58], [97]]
            [Server.Event.fork, Server.Event.waitpid 7] true) ∧
    (Server.startup sample_cfg [101] [] (some (fun _ => none)) []).state.map
        (fun st => (Server.handle sample_cfg sample_inet_ntop st 1
          ⟨some (wire [[97]]), sender_v6, sample_spawn⟩).outcome)
      = some (Server.Outcome.dispatched [[101], [58, 58, 49], [97]]
          [Server.Event.fork, Server.Event.waitpid 7] true) ∧
    (∀ (cfg : Config) (c : List Nat) (ls : List (List Nat))
        (mem : Option (Nat → Option Server.Ptr)) (stack : List Nat)
        (f : Nat → List Nat → Option (List Nat)) (hist : List (Nat × Server.Input))
        (st0 st : Server.State) (i : Nat) (sender : List Nat) (fs : List (List Nat))
        (spawn : Server.Spawn),
      (∀ x ∈ fs, 0 ∉ x) → fs.length = cfg.ARGUMENT_MAX →
      (wire fs).length ≤ cfg.BUFFER_SIZE →
      Server.startup cfg c ls mem stack = Server.Startup.ready st0 →
      Server.after_history cfg f st0 hist = some st →
      (Server.handle cfg f st i ⟨some (wire fs), sender, spawn⟩).outcome.is_dispatch
        = false) ∧
    (wire (List.replicate 21 [120])).length ≤ (Config.mk 64 21).BUFFER_SIZE ∧
    ((Server.startup (Config.mk 64 21) [101] [] (some (fun _ => none)) []).state.bind
        (fun st0 => Server.after_history (Config.mk 64 21) sample_inet_ntop st0
          [(0, sample_earlier)])).map
        (fun st => (Server.handle (Config.mk 64 21) sample_inet_ntop st 1
          ⟨some (wire (List.replicate 21 [120])), sender_v4, sample_spawn⟩).outcome)
      = some Server.Outcome.out_of_bounds := by
  refine ⟨by decide, by decide, by decide, ?_, by decide, by decide⟩
  intro cfg c ls mem stack f hist st0 st i sender fs spawn hfs hm hlen h0 hh
  have hsized := Server.after_history_sized cfg f ls.length hist st0 st
    (Server.startup_sized cfg c ls mem stack st0 h0) hh
  have hcount : field_count (wire fs) = fs.length := by
    simp [field_count, wire, magic, fields_bytes_count fs hfs]
  cases hd : (Server.handle cfg f st i ⟨some (wire fs), sender, spawn⟩).outcome.is_dispatch
  · rfl
  · have := Server.dispatch_needs_room cfg f ls.length st i (wire fs) sender spawn hsized
      (well_formed_wire fs) hlen hd
    rw [hcount, hm] at this
    simp only [Server.sizeof_ptr] at this
    omega

/-- C4 (fails on the code): the block for the vector has `arguments_max` bytes, not entries.
After any start-up that reaches `server` and any handled inputs, a well-formed packet with
`m` fields is dispatched only if `sizeof_ptr * (n + 3 + m)` is at most
`n + 3 + ARGUMENT_MAX`, so never for `m = ARGUMENT_MAX`; and with `ARGUMENT_MAX = 29` and no
static arguments (a block of 32 bytes, four entries) a packet with only two fields makes
`add_argument` store the terminating NULL as entry 4, outside the block. With
`ARGUMENT_MAX = 13` (a block of 16 bytes) a packet with 13 empty fields fails already at
the store for the sender address. -/
theorem remote_capacity_out_of_block :
    (∀ (cfg : Config) (c : List Nat) (ls : List (List Nat))
        (mem : Option (Nat → Option Server.Ptr)) (stack : List Nat)
        (f : Nat → List Nat → Option (List Nat)) (hist : List (Nat × Server.Input))
        (st0 st : Server.State) (i : Nat) (b sender : List Nat) (spawn : Server.Spawn),
      well_formed b → b.length ≤ cfg.BUFFER_SIZE →
      Server.startup cfg c ls mem stack = Server.Startup.ready st0 →
      Server.after_history cfg f st0 hist = some st →
      ((Server.handle cfg f st i ⟨some b, sender, spawn⟩).outcome.is_dispatch = true →
        Server.sizeof_ptr * (ls.length + 3 + field_count b)
          ≤ ls.length + 3 + cfg.ARGUMENT_MAX) ∧
      (field_count b = cfg.ARGUMENT_MAX →
        (Server.handle cfg f st i ⟨some b, sender, spawn⟩).outcome.is_dispatch = false)) ∧
    field_count (wire [[97], [98]]) ≤ sample_cfg.ARGUMENT_MAX ∧
    (Server.startup sample_cfg [101] [] (some (fun _ => none)) []).state.map
        (fun st => (Server.handle sample_cfg sample_inet_ntop st 0
          ⟨some (wire [[97], [98]]), sender_v6, sample_spawn⟩).outcome)
      = some Server.Outcome.out_of_bounds ∧
    field_count (wire (List.replicate 13 [])) = (Config.mk 32 13).ARGUMENT_MAX ∧
    (Server.startup (Config.mk 32 13) [101] [] (some (fun _ => none)) []).state.map
        (fun st => (Server.handle (Config.mk 32 13) sample_inet_ntop st 0
          ⟨some (wire (List.replicate 13 [])), sender_v6, sample_spawn⟩).outcome)
      = some Server.Outcome.out_of_bounds := by
  refine ⟨?_, by decide, by decide, by decide, by decide⟩
  intro cfg c ls mem stack f hist st0 st i b sender spawn hb hlen h0 hh
  have hsized := Server.after_history_sized cfg f ls.length hist st0 st
    (Server.startup_sized cfg c ls mem stack st0 h0) hh
  refine ⟨fun hd => Server.dispatch_needs_room cfg f ls.length st i b sender spawn hsized hb
    hlen hd, fun hm => ?_⟩
  cases hd : (Server.handle cfg f st i ⟨some b, sender, spawn⟩).outcome.is_dispatch
  · rfl
  · have := Server.dispatch_needs_room cfg f ls.length st i b sender spawn hsized hb hlen hd
    rw [hm] at this
    simp only [Server.sizeof_ptr] at this
    omega

/-- C5: on a decimal literal with optional minus sign and value below `2 ^ 31` in absolute
value, followed by a suffix that does not start with a digit, `parse_interval` agrees with the
reference definition: the value times the unit multiplier when the value is positive, the
suffix is empty or one of `s`, `m`, `h`, `d`, and the product is at most `INT_MAX`; -1 in
every other case. -/
theorem parse_interval_reference (neg : Bool) (ds u : List Nat) (hne : ds ≠ [])
    (hd : ∀ d ∈ ds, Client.isdigit d = true) (hv : Client.digits_value ds < 2 ^ 31)
    (hu : ∀ c ∈ u.head?, Client.isdigit c = false) (hnul : 0 ∉ u) :
    Client.parse_interval (Client.sign_bytes neg ++ ds ++ u)
      = Client.interval_reference (Client.signed_value neg ds) u := by
  have hst := Client.strtol_literal neg ds u hne hd hv hu
  have hcu : cstr u = u := cstr_of_nul_free hnul
  have hbound : -(2 ^ 31 : Int) < Client.signed_value neg ds ∧ Client.signed_value neg ds < 2 ^ 31 := by
    unfold Client.signed_value
    cases neg <;> simp <;> omega
  generalize Client.signed_value neg ds = v at hst hbound
  have hwrap : ∀ k : Int, 0 ≤ k → k ≤ 86400 → 1 ≤ v → Client.wrap_long (v * k) = v * k := by
    intro k hk0 hk1 hv1
    unfold Client.wrap_long
    have h1 : v * k ≤ 2 ^ 31 * 86400 := by nlinarith
    have h2 : 0 ≤ v * k := by nlinarith
    omega
  unfold Client.parse_interval
  simp only [hst, strcmp_eq, hcu]
  have hc1 : cstr [115] = [115] := by decide
  have hc2 : cstr [] = [] := by decide
  have hc3 : cstr [109] = [109] := by decide
  have hc4 : cstr [104] = [104] := by decide
  have hc5 : cstr [100] = [100] := by decide
  rw [hc1, hc2, hc3, hc4, hc5]
  unfold Client.interval_reference Client.unit_multiplier
  by_cases hv1 : v < 1
  · have hn : ¬ (1 ≤ v) := by omega
    simp only [hv1, true_or, if_true]
    split <;> simp [hn]
  · have hv1b : 1 ≤ v := by omega
    have hlm : ¬ (v < 1 ∨ v ≥ Client.LONG_MAX) := by
      unfold Client.LONG_MAX; omega
    simp only [hlm, if_false]
    by_cases h1 : u = []
    · subst h1
      simp [Client.INT_MAX]; omega
    by_cases h2 : u = [115]
    · subst h2
      simp [Client.INT_MAX]; omega
    by_cases h3 : u = [109]
    · subst h3
      have hw := hwrap 60 (by norm_num) (by norm_num) hv1b
      simp [Client.INT_MAX, hw]; omega
    by_cases h4 : u = [104]
    · subst h4
      have hw := hwrap (60 * 60) (by norm_num) (by norm_num) hv1b
      simp only [hw]
      simp [Client.INT_MAX]; omega
    by_cases h5 : u = [100]
    · subst h5
      have hw := hwrap (60 * 60 * 24) (by norm_num) (by norm_num) hv1b
      simp only [hw]
      simp [Client.INT_MAX]; omega
    simp [h1, h2, h3, h4, h5]

theorem parse_interval_reference_witness :
    ([53] : List Nat) ≠ [] ∧ (∀ d ∈ [53], Client.isdigit d = true) ∧
    Client.digits_value [53] < 2 ^ 31 ∧
    (∀ c ∈ ([109] : List Nat).head?, Client.isdigit c = false) ∧ (0 : Nat) ∉ [109] ∧
    Client.parse_interval (Client.sign_bytes false ++ [53] ++ [109])
      = Client.interval_reference (Client.signed_value false [53]) [109] ∧
    Client.interval_reference (Client.signed_value false [53]) [109] = 300 :=
  ⟨by decide, by decide, by decide, by decide, by decide,
    parse_interval_reference false [53] [109] (by decide) (by decide) (by decide) (by decide)
      (by decide), by decide⟩

/-- C6 (fails on the code): with the numeric part 922337203685477581 and the unit `m` the
product `v * 60` is far above `INT_MAX`, yet the wrapped 64 bit multiplication leaves 12 and
`parse_interval` returns the positive interval 12 instead of -1. -/
theorem parse_interval_overflow_accepted :
    Client.strtol [57, 50, 50, 51, 51, 55, 50, 48, 51, 54, 56, 53, 52, 55, 55, 53, 56, 49, 109]
      = (922337203685477581, [109]) ∧
    (1 : Int) ≤ 922337203685477581 ∧ (922337203685477581 : Int) < Client.LONG_MAX ∧
    (922337203685477581 : Int) * 60 > Client.INT_MAX ∧
    Client.parse_interval
      [57, 50, 50, 51, 51, 55, 50, 48, 51, 54, 56, 53, 52, 55, 55, 53, 56, 49, 109] = 12 := by
  decide

/-- C7: the client's `add_argument` on a NUL-free string fails exactly when the string and its
NUL do not fit behind the current length, and a failed call returns the state unchanged. -/
theorem client_add_argument_capacity (cfg : Config) (st : Client.State) (s : List Nat)
    (_hlow : 6 ≤ st.length) (_hhigh : st.length ≤ cfg.BUFFER_SIZE) (hs : 0 ∉ s) :
    ((Client.add_argument cfg st s).2 = false ↔ st.length + s.length + 1 > cfg.BUFFER_SIZE) ∧
    ((Client.add_argument cfg st s).2 = false → (Client.add_argument cfg st s).1 = st) := by
  have h : cstr s = s := cstr_of_nul_free hs
  unfold Client.add_argument strlen
  rw [h]
  by_cases hfit : st.length + (s.length + 1) ≤ cfg.BUFFER_SIZE
  · simp [hfit]; omega
  · simp [hfit]; omega

theorem client_add_argument_capacity_witness :
    6 ≤ (Client.init (Config.mk 8 2)).length ∧
    (Client.init (Config.mk 8 2)).length ≤ (Config.mk 8 2).BUFFER_SIZE ∧ (0 : Nat) ∉ [97] ∧
    (((Client.add_argument (Config.mk 8 2) (Client.init (Config.mk 8 2)) [97]).2 = false
      ↔ (Client.init (Config.mk 8 2)).length + [97].length + 1 > (Config.mk 8 2).BUFFER_SIZE) ∧
    ((Client.add_argument (Config.mk 8 2) (Client.init (Config.mk 8 2)) [97]).2 = false →
      (Client.add_argument (Config.mk 8 2) (Client.init (Config.mk 8 2)) [97]).1
        = Client.init (Config.mk 8 2))) :=
  ⟨by decide, by decide, by decide,
    client_add_argument_capacity (Config.mk 8 2) (Client.init (Config.mk 8 2)) [97]
      (by decide) (by decide) (by decide)⟩

/-- C8 (fails on the code): with two sockets both readable, socket 0 delivering the valid
6 byte packet `"DynIP\0"`, the field loop leaves the shared loop variable at 5, the socket
loop ends, and socket 1 is never handed to the receive path in this wake-up. With eight
sockets of which only socket 7 is readable, the same packet sends the loop back to index 6
and socket 7 is handed to the receive path a second time. -/
theorem wake_skips_ready_socket :
    (Server.startup sample_cfg [101] [] (some (fun _ => none)) []).state.map
        (fun st => Server.wake sample_cfg sample_inet_ntop [true, true] sample_env 8 st 0 0)
      = some (some [(0, Server.Outcome.dispatched [[101], [58, 58, 49]]
          [Server.Event.fork, Server.Event.waitpid 7] true)]) ∧
    (Server.startup sample_cfg [101] [] (some (fun _ => none)) []).state.map
        (fun st => Server.wake sample_cfg sample_inet_ntop
          [false, false, false, false, false, false, false, true] sample_once_env 16 st 0 0)
      = some (some [(7, Server.Outcome.dispatched [[101], [58, 58, 49]]
          [Server.Event.fork, Server.Event.waitpid 7] true), (7, Server.Outcome.recv_error)]) := by
  decide

/-- C9 (fails on the code): in the child (`fork` returned 0) with a failing `execvp` the
process logs the diagnostic, then runs the parent's `waitpid` step with pid 0 and goes on
with the socket loop; it does not terminate. In the sample wake-up the child, after handling
socket 0, calls `recvfrom` on the readable socket 6. -/
theorem exec_failure_child_goes_on :
    (∀ (argv : List (List Nat)) (w : Option Nat),
      Server.dispatch argv ⟨0, true, w⟩ =
        ([Server.Event.fork, Server.Event.execvp argv, Server.Event.log_execvp] ++
          Server.wait_child ⟨0, true, w⟩, true) ∧
      Server.Event.waitpid 0 ∈ (Server.dispatch argv ⟨0, true, w⟩).1) ∧
    (Server.startup sample_cfg [101] [] (some (fun _ => none)) []).state.map
        (fun st => Server.wake sample_cfg sample_inet_ntop
          [true, false, false, false, false, false, true] sample_child_env 8 st 0 0)
      = some (some [(0, Server.Outcome.dispatched [[101], [58, 58, 49]]
            [Server.Event.fork, Server.Event.execvp [[101], [58, 58, 49]],
              Server.Event.log_execvp, Server.Event.waitpid 0, Server.Event.log_waitpid] true),
          (6, Server.Outcome.recv_error)]) := by
  refine ⟨fun argv w => by simp [Server.dispatch, Server.wait_child], by decide⟩

/-- C10 (fails on the code): `init_arguments` requests `arguments_max` bytes, fewer than the
`arguments_max * sizeof(const char *)` bytes that `arguments_max` entries occupy. -/
theorem init_arguments_allocation_short (cfg : Config) (st : Server.State) (n : Nat)
    (mem : Option (Nat → Option Server.Ptr)) :
    (Server.init_arguments cfg st n mem).1.arguments_max = 1 + n + 1 + cfg.ARGUMENT_MAX + 1 ∧
    (Server.init_arguments cfg st n mem).1.arguments_bytes
      = (Server.init_arguments cfg st n mem).1.arguments_max ∧
    (Server.init_arguments cfg st n mem).1.arguments_bytes
      < (Server.init_arguments cfg st n mem).1.arguments_max * Server.sizeof_ptr := by
  cases mem <;> simp [Server.init_arguments, Server.sizeof_ptr]

end DynIP
